import Mathlib

/-!
Verification of the sample partitioning and region/geometry model of the
open-images-starter repository (`tools/util/region.py`, `modules/detect_region.py`,
`modules/sample.py`, `modules/loader.py`).

Numbers are modelled by `ℚ`.  Python's `int(q)` truncates toward zero and
Python's `//` is floor division (on both ints and floats); both are modelled
exactly below.  CSV cells are modelled as already-coerced typed values (the
`float`/`int` coercions of string cells performed by the Python `csv` layer are
outside the model); JSON dictionaries with fixed literal keys are modelled as
structures.  A Python value that may be `None` or a string (`class_id`) is
modelled as `Option String`, and Python's `str(None) = "None"` is modelled by
`pyStr`.  Exceptions are modelled with `Except`.
-/

/-- Python `int(q)`: truncation toward zero (floor for nonnegative, ceil for
negative values). -/
def pyInt (q : ℚ) : ℚ :=
  if 0 ≤ q then ((⌊q⌋ : ℤ) : ℚ) else ((⌈q⌉ : ℤ) : ℚ)

/-- Python `a // b`: floor division. -/
def pyFloorDiv (a b : ℚ) : ℚ :=
  ((⌊a / b⌋ : ℤ) : ℚ)

/-- Python `str(x)` applied to an optional string: `None` renders as "None". -/
def pyStr (s : Option String) : String :=
  match s with
  | none => "None"
  | some s => s

/-- State of a `Region` object (`tools/util/region.py`): the four edges, the
centre/size view, and the `force_int` mode. -/
structure Region where
  left : ℚ
  right : ℚ
  top : ℚ
  bottom : ℚ
  x : ℚ
  y : ℚ
  width : ℚ
  height : ℚ
  force_int : Bool
deriving DecidableEq, Repr

/-- The field state of a freshly allocated `Region` before `__init__` runs
`set_rect` (all coordinates zero). -/
def Region.zero (fi : Bool) : Region :=
  { left := 0
    right := 0
    top := 0
    bottom := 0
    x := 0
    y := 0
    width := 0
    height := 0
    force_int := fi }

/-- `Region.convert_to_int`: truncate all eight coordinates toward zero. -/
def Region.convert_to_int (reg : Region) : Region :=
  { reg with
    width := pyInt reg.width
    height := pyInt reg.height
    left := pyInt reg.left
    right := pyInt reg.right
    top := pyInt reg.top
    bottom := pyInt reg.bottom
    x := pyInt reg.x
    y := pyInt reg.y }

/-- `Region._calibrate_to_rect`: recompute the centre/size view from the edges
(after integer truncation in `force_int` mode). -/
def Region.calibrate_to_rect (reg : Region) : Region :=
  let reg := if reg.force_int then reg.convert_to_int else reg
  let w := reg.right - reg.left
  let h := reg.bottom - reg.top
  { reg with
    width := w
    height := h
    x := reg.left + pyFloorDiv w 2
    y := reg.top + pyFloorDiv h 2 }

/-- `Region._calibrate_to_xy`: recompute the edges from the centre/size view
(after integer truncation in `force_int` mode).  Note that it does not
recompute `width`/`height` from the edges it produces. -/
def Region.calibrate_to_xy (reg : Region) : Region :=
  let reg := if reg.force_int then reg.convert_to_int else reg
  let hw := pyFloorDiv reg.width 2
  let hh := pyFloorDiv reg.height 2
  { reg with
    left := reg.x - hw
    right := reg.x + hw
    top := reg.y - hh
    bottom := reg.y + hh }

/-- `Region.set_rect`: validates `right >= left` and `bottom >= top`, raising
on violation, then stores the edges and recalibrates. -/
def Region.set_rect (reg : Region) (l r t b : ℚ) : Except String Region :=
  if r < l then
    .error ("Invalid Input: Right must be greater than left.")
  else if b < t then
    .error ("Invalid Input: Bottom must be greater than top.")
  else
    .ok (Region.calibrate_to_rect { reg with left := l, right := r, top := t, bottom := b })

/-- The `Region` constructor: zero-initialise all fields, then `set_rect`. -/
def Region.mkRegion (l r t b : ℚ) (fi : Bool) : Except String Region :=
  Region.set_rect (Region.zero fi) l r t b

/-- Property setter `Region.left`. -/
def Region.set_left (reg : Region) (v : ℚ) : Region :=
  Region.calibrate_to_rect { reg with left := v }

/-- Property setter `Region.right`. -/
def Region.set_right (reg : Region) (v : ℚ) : Region :=
  Region.calibrate_to_rect { reg with right := v }

/-- Property setter `Region.top`. -/
def Region.set_top (reg : Region) (v : ℚ) : Region :=
  Region.calibrate_to_rect { reg with top := v }

/-- Property setter `Region.bottom`. -/
def Region.set_bottom (reg : Region) (v : ℚ) : Region :=
  Region.calibrate_to_rect { reg with bottom := v }

/-- Property setter `Region.x`. -/
def Region.set_x (reg : Region) (v : ℚ) : Region :=
  Region.calibrate_to_xy { reg with x := v }

/-- Property setter `Region.y`. -/
def Region.set_y (reg : Region) (v : ℚ) : Region :=
  Region.calibrate_to_xy { reg with y := v }

/-- Property setter `Region.width`. -/
def Region.set_width (reg : Region) (v : ℚ) : Region :=
  Region.calibrate_to_xy { reg with width := v }

/-- Property setter `Region.height`. -/
def Region.set_height (reg : Region) (v : ℚ) : Region :=
  Region.calibrate_to_xy { reg with height := v }

/-- `Region.set_xy`: update whichever of `x`, `y` is provided, then
recalibrate the edges. -/
def Region.set_xy (reg : Region) (xv yv : Option ℚ) : Region :=
  let reg := match xv with | some v => { reg with x := v } | none => reg
  let reg := match yv with | some v => { reg with y := v } | none => reg
  Region.calibrate_to_xy reg

/-- `Region.set_size`: store `width` and `height`, then recalibrate the edges. -/
def Region.set_size (reg : Region) (w h : ℚ) : Region :=
  Region.calibrate_to_xy { reg with width := w, height := h }

/-- `Region.clone`: construct a fresh `Region` with the same `force_int` mode
and `set_rect` it to this region's edges.  (The constructor re-runs the
`set_rect` validation, so cloning can raise.) -/
def Region.clone (reg : Region) : Except String Region :=
  Region.mkRegion reg.left reg.right reg.top reg.bottom reg.force_int

/-- The edge view and the centre/size view agree in the direction computed by
`_calibrate_to_rect`. -/
def Region.rectConsistent (reg : Region) : Prop :=
  reg.width = reg.right - reg.left ∧
  reg.height = reg.bottom - reg.top ∧
  reg.x = reg.left + pyFloorDiv reg.width 2 ∧
  reg.y = reg.top + pyFloorDiv reg.height 2

/-- The edge view and the centre/size view agree in the direction computed by
`_calibrate_to_xy`. -/
def Region.xyConsistent (reg : Region) : Prop :=
  reg.left = reg.x - pyFloorDiv reg.width 2 ∧
  reg.right = reg.x + pyFloorDiv reg.width 2 ∧
  reg.top = reg.y - pyFloorDiv reg.height 2 ∧
  reg.bottom = reg.y + pyFloorDiv reg.height 2

instance (reg : Region) : Decidable reg.rectConsistent := by
  unfold Region.rectConsistent; infer_instance

instance (reg : Region) : Decidable reg.xyConsistent := by
  unfold Region.xyConsistent; infer_instance

deriving instance DecidableEq for Except

/-- The `Region` produced by `Region(0, 5, 0, 5)` (integer mode). -/
def demoRegion5 : Region :=
  { left := 0, right := 5, top := 0, bottom := 5,
    x := 2, y := 2, width := 5, height := 5, force_int := true }

/-- The `Region` produced by `Region(0, 4, 0, 4)` (integer mode). -/
def demoRegion4 : Region :=
  { left := 0, right := 4, top := 0, bottom := 4,
    x := 2, y := 2, width := 4, height := 4, force_int := true }

/-- State of a `DetectRegion` (`modules/detect_region.py`): a `Region` plus
detection metadata.  `class_id` is annotated `str` in the source but
initialised to Python `None`, hence `Option String` here. -/
structure DetectRegion where
  toRegion : Region
  class_id : Option String
  confidence : ℚ
  is_occluded : ℤ
  is_truncated : ℤ
  is_group_of : ℤ
  is_depiction : ℤ
  is_inside : ℤ
deriving DecidableEq, Repr

/-- The result of the constructor call `DetectRegion(force_int=fi)`: the base
constructor runs `set_rect(0, 0, 0, 0)` (which succeeds and recalibrates the
zero region), and the metadata takes its defaults. -/
def DetectRegion.mkDefault (fi : Bool) : DetectRegion :=
  { toRegion := Region.calibrate_to_rect (Region.zero fi)
    class_id := none
    confidence := 1
    is_occluded := 0
    is_truncated := 0
    is_group_of := 0
    is_depiction := 0
    is_inside := 0 }

/-- The flat mapping produced by `DetectRegion.encode` (a JSON dict with the
eleven fixed keys, modelled as a structure). -/
structure EncodedDetectRegion where
  left : ℚ
  right : ℚ
  top : ℚ
  bottom : ℚ
  class_id : Option String
  confidence : ℚ
  is_occluded : ℤ
  is_truncated : ℤ
  is_group_of : ℤ
  is_depiction : ℤ
  is_inside : ℤ
deriving DecidableEq, Repr

/-- `DetectRegion.encode`: the eleven serialized fields, stored verbatim. -/
def DetectRegion.encode (d : DetectRegion) : EncodedDetectRegion :=
  { left := d.toRegion.left
    right := d.toRegion.right
    top := d.toRegion.top
    bottom := d.toRegion.bottom
    class_id := d.class_id
    confidence := d.confidence
    is_occluded := d.is_occluded
    is_truncated := d.is_truncated
    is_group_of := d.is_group_of
    is_depiction := d.is_depiction
    is_inside := d.is_inside }

/-- `DetectRegion.decode`: builds `DetectRegion(force_int=False)`, then
assigns the four edges through the property setters (each recalibrating) and
coerces the metadata (`float` on geometry/confidence and `int` on flags are
identities in this model; `str` renders `None` as "None"). -/
def DetectRegion.decode (e : EncodedDetectRegion) : DetectRegion :=
  let d := DetectRegion.mkDefault false
  { d with
    toRegion :=
      ((((d.toRegion.set_left e.left).set_right e.right).set_top e.top).set_bottom e.bottom)
    class_id := some (pyStr e.class_id)
    confidence := e.confidence
    is_occluded := e.is_occluded
    is_truncated := e.is_truncated
    is_group_of := e.is_group_of
    is_depiction := e.is_depiction
    is_inside := e.is_inside }

/-- `d.clone()` on a `DetectRegion` dispatches to the inherited
`Region.clone`, which reads only the geometry fields and constructs a plain
`Region`. -/
def DetectRegion.clone (d : DetectRegion) : Except String Region :=
  Region.clone d.toRegion

/-- A `DetectRegion` as built by the association pass (string `class_id`). -/
def demoDetect : DetectRegion :=
  { toRegion := demoRegion5
    class_id := some ("/m/dog")
    confidence := 9/10
    is_occluded := 0
    is_truncated := 1
    is_group_of := 0
    is_depiction := 0
    is_inside := 0 }

/-- Same geometry as `demoDetect`, entirely different metadata. -/
def demoDetect2 : DetectRegion :=
  { toRegion := demoRegion5
    class_id := some ("/m/cat")
    confidence := 1/2
    is_occluded := 1
    is_truncated := 0
    is_group_of := 1
    is_depiction := 1
    is_inside := 1 }

/-- State of a `Sample` (`modules/sample.py`, serialization-relevant fields):
`key`, `set_index` (Python `None` until stamped at load time), `remote_path`,
and the ordered list of detect regions. -/
structure Sample where
  key : String
  set_index : Option ℤ
  remote_path : String
  detect_regions : List DetectRegion
deriving DecidableEq, Repr

/-- The per-sample JSON object written by `Sample.encode` (`set_index` is not
serialized). -/
structure EncodedSample where
  key : String
  remote_path : String
  detect_regions : List EncodedDetectRegion
deriving DecidableEq, Repr

/-- `Sample.encode`. -/
def Sample.encode (s : Sample) : EncodedSample :=
  { key := s.key
    remote_path := s.remote_path
    detect_regions := s.detect_regions.map DetectRegion.encode }

/-- `Sample.decode`: a fresh `Sample` (whose `set_index` is `None`) with the
three serialized fields restored. -/
def Sample.decode (e : EncodedSample) : Sample :=
  { key := e.key
    set_index := none
    remote_path := e.remote_path
    detect_regions := e.detect_regions.map DetectRegion.decode }

/-- A partition (sample set) file: the JSON container
`{set_index, samples}`. -/
structure SampleSetFile where
  set_index : ℤ
  samples : List EncodedSample
deriving DecidableEq, Repr

/-- Python dicts preserve insertion order and keep an existing key's position
on re-assignment; `samples` in the loader is modelled as an ordered
association list with that update rule. -/
abbrev SampleDict := List (String × Sample)

/-- Lookup (`samples[key]` / `key in samples`). -/
def dictFind (d : SampleDict) (k : String) : Option Sample :=
  (d.find? (fun p => p.1 == k)).map (fun p => p.2)

/-- Assignment `samples[key] = v`: replace in place if the key is present,
else append. -/
def dictInsert (d : SampleDict) (k : String) (v : Sample) : SampleDict :=
  if d.any (fun p => p.1 == k) then
    d.map (fun p => if p.1 == k then (k, v) else p)
  else
    d ++ [(k, v)]

/-- A row of the image-index CSV: column 0 (filename with extension) and
column 1 (remote URL). -/
abbrev IndexRow := String × String

/-- A row of the ground-truth CSV with its cells already coerced to their
target types: `col0=key`, `col2=class_id`, `col3=confidence`,
`col4..7=x_min,x_max,y_min,y_max`, `col8..12=the five flags` (column 1 is
unused by the loader). -/
structure GTRow where
  key : String
  class_id : String
  confidence : ℚ
  x_min : ℚ
  x_max : ℚ
  y_min : ℚ
  y_max : ℚ
  is_occluded : ℤ
  is_truncated : ℤ
  is_group_of : ℤ
  is_depiction : ℤ
  is_inside : ℤ
deriving DecidableEq, Repr

/-- The key derivation `row[0].split(".")[0]` of `Loader.create_samples`:
the first element of a split on "." is the (possibly empty) prefix of the
string before its first "." (the whole string when it has no "."). -/
def sampleKey (c0 : String) : String :=
  String.mk (c0.data.takeWhile (fun c => c ≠ '.'))

/-- The `Sample` built for one image-index row. -/
def mkIndexSample (row : IndexRow) : Sample :=
  { key := sampleKey row.1
    set_index := none
    remote_path := row.2
    detect_regions := [] }

/-- `Loader.create_samples`: fold the image-index rows into the dict,
last-write-wins on duplicate derived keys. -/
def Loader.create_samples (rows : List IndexRow) : SampleDict :=
  rows.foldl (fun d row => dictInsert d (sampleKey row.1) (mkIndexSample row)) []

/-- The row action of `Loader.associate_boxes_with_samples`: skip rows whose
key is absent; otherwise build a `DetectRegion(force_int=False)`, `set_rect`
it to the row's box (which raises on inverted bounds), fill the metadata from
the row, and append it to the matching sample's region list. -/
def associateRow (d : SampleDict) (row : GTRow) : Except String SampleDict :=
  match dictFind d row.key with
  | none => .ok d
  | some sample =>
    match (DetectRegion.mkDefault false).toRegion.set_rect
        row.x_min row.x_max row.y_min row.y_max with
    | .error e => .error e
    | .ok reg =>
      let det : DetectRegion :=
        { toRegion := reg
          class_id := some row.class_id
          confidence := row.confidence
          is_occluded := row.is_occluded
          is_truncated := row.is_truncated
          is_group_of := row.is_group_of
          is_depiction := row.is_depiction
          is_inside := row.is_inside }
      .ok (dictInsert d row.key
        { sample with detect_regions := sample.detect_regions ++ [det] })

/-- `Loader.associate_boxes_with_samples`: run the row action over the
ground-truth rows in order; an exception from any row aborts the pass. -/
def Loader.associate_boxes_with_samples (samples : SampleDict) (rows : List GTRow) :
    Except String SampleDict :=
  rows.foldlM associateRow samples

/-- The loop body of `Loader.export_samples`: starting from chunk index `i`,
emit `(i, sample_list[i*size:(i+1)*size])` while `(i+1)*size < n`, and stop —
without emitting — as soon as `(i+1)*size >= n`.  The loop runs at most
`n` iterations when `size >= 1`, so the fuel `n + 1` supplied below never
runs out; the fuel only serves to make the (for `size = 0` non-terminating)
`while True` loop a total function. -/
def exportLoop (l : List Sample) (size : ℕ) : ℕ → ℕ → List (ℕ × List Sample)
  | 0, _ => []
  | fuel + 1, i =>
    if (i + 1) * size ≥ l.length then []
    else (i, (l.drop (i * size)).take size) :: exportLoop l size fuel (i + 1)

/-- `Loader.export_samples`: `list(samples.values())`, then the chunking
loop; each emitted pair `(i, chunk)` is handed to `_write_samples`. -/
def Loader.export_samples (samples : SampleDict) (size : ℕ) : List (ℕ × List Sample) :=
  exportLoop (samples.map (fun p => p.2)) size (samples.length + 1) 0

/-- `Loader._write_samples`: the partition file content for one chunk. -/
def Loader.write_samples (samples : List Sample) (index : ℤ) : SampleSetFile :=
  { set_index := index
    samples := samples.map Sample.encode }

/-- Error kind of `Loader.load_sample_set_from_file`. -/
inductive LoadError
  | fileNotFound (path : String)
deriving DecidableEq, Repr

/-- `Loader.load_sample_set_from_file`: raise `FileNotFound` when nothing
exists at the path (the filesystem is modelled as a partial map from paths to
well-formed partition files); otherwise decode every sample and stamp each
with the container's `set_index`. -/
def Loader.load_sample_set_from_file (fs : String → Option SampleSetFile)
    (path : String) : Except LoadError (List Sample) :=
  match fs path with
  | none => .error (.fileNotFound path)
  | some file =>
    .ok ((file.samples.map Sample.decode).map
      (fun s => { s with set_index := some file.set_index }))

/-- A `Sample` with one detect region, as it sits in a dict. -/
def demoSample : Sample :=
  { key := "a"
    set_index := none
    remote_path := "http://u0"
    detect_regions := [demoDetect] }

/-- A second `Sample` without regions. -/
def demoSampleB : Sample :=
  { key := "b"
    set_index := none
    remote_path := "http://u1"
    detect_regions := [] }

/-- A two-entry sample dict. -/
def demoDict : SampleDict := [("a", demoSample), ("b", demoSampleB)]

/-- A partition file holding `demoSample`, with index 7. -/
def demoFile : SampleSetFile := Loader.write_samples [demoSample] 7

/-- A filesystem exposing `demoFile` at one path. -/
def demoFS : String → Option SampleSetFile :=
  fun p => if p == "sample_set_7.json" then some demoFile else none

/-- The `DetectRegion` appended by a successful ground-truth row action:
`DetectRegion(force_int=False)`, `set_rect` to the row's box, metadata from
the row's columns. -/
def mkRowDetect (row : GTRow) : DetectRegion :=
  { toRegion := Region.calibrate_to_rect
      { (DetectRegion.mkDefault false).toRegion with
        left := row.x_min
        right := row.x_max
        top := row.y_min
        bottom := row.y_max }
    class_id := some row.class_id
    confidence := row.confidence
    is_occluded := row.is_occluded
    is_truncated := row.is_truncated
    is_group_of := row.is_group_of
    is_depiction := row.is_depiction
    is_inside := row.is_inside }

/-- Appending the regions of a batch of ground-truth rows to one dict entry. -/
def appendRowsTo (gt : List GTRow) (p : String × Sample) : String × Sample :=
  (p.1, { p.2 with detect_regions :=
    p.2.detect_regions ++ (gt.filter (fun row => row.key == p.1)).map mkRowDetect })

/-- The image-index rows of the worked example. -/
def demoIdx : List IndexRow := [("img1.jpg", "http://u1"), ("img2.jpg", "http://u2")]

/-- A ground-truth row matching sample "img1" with a well-formed box. -/
def demoRow1 : GTRow :=
  { key := "img1"
    class_id := "/m/dog"
    confidence := 9/10
    x_min := 1/10
    x_max := 1/2
    y_min := 1/10
    y_max := 1/2
    is_occluded := 0
    is_truncated := 0
    is_group_of := 0
    is_depiction := 0
    is_inside := 0 }

/-- A ground-truth row whose key matches no sample. -/
def demoRow2 : GTRow :=
  { key := "zzz"
    class_id := "/m/cat"
    confidence := 1
    x_min := 0
    x_max := 1
    y_min := 0
    y_max := 1
    is_occluded := 0
    is_truncated := 0
    is_group_of := 0
    is_depiction := 0
    is_inside := 0 }

/-- The ground-truth rows of the worked example (one match, one miss). -/
def demoGT : List GTRow := [demoRow1, demoRow2]

/-- A matching ground-truth row with inverted horizontal bounds. -/
def demoBadRow : GTRow :=
  { key := "img1"
    class_id := "/m/dog"
    confidence := 1
    x_min := 1/2
    x_max := 1/10
    y_min := 0
    y_max := 1
    is_occluded := 0
    is_truncated := 0
    is_group_of := 0
    is_depiction := 0
    is_inside := 0 }

/-- A `Sample` holding a default-constructed region (`class_id = None`). -/
def demoSampleN : Sample :=
  { key := "n"
    set_index := none
    remote_path := "http://un"
    detect_regions := [DetectRegion.mkDefault false] }

/-- A filesystem exposing the partition file written for chunk
`(0, [demoSampleN])`. -/
def demoFSN : String → Option SampleSetFile :=
  fun p => if p == "fn" then some (Loader.write_samples [demoSampleN] 0) else none

/-- A filesystem exposing the partition file written for chunk
`(0, [demoSample])`. -/
def demoFS0 : String → Option SampleSetFile :=
  fun p => if p == "f0" then some (Loader.write_samples [demoSample] ((0 : ℕ) : ℤ)) else none

/-- Python's `int()` truncation is monotone. -/
lemma pyInt_mono {a b : ℚ} (h : a ≤ b) : pyInt a ≤ pyInt b := by
  unfold pyInt
  rcases le_or_lt 0 a with ha | ha
  · rw [if_pos ha, if_pos (ha.trans h)]
    exact_mod_cast Int.floor_le_floor h
  · rcases le_or_lt 0 b with hb | hb
    · rw [if_neg (not_le.mpr ha), if_pos hb]
      have h1 : ⌈a⌉ ≤ 0 := Int.ceil_le.mpr (by exact_mod_cast ha.le)
      have h2 : (0:ℤ) ≤ ⌊b⌋ := Int.floor_nonneg.mpr hb
      exact_mod_cast h1.trans h2
    · rw [if_neg (not_le.mpr ha), if_neg (not_le.mpr hb)]
      exact_mod_cast Int.ceil_le_ceil h

/-- Truncation fixes rationals that are already integers. -/
lemma pyInt_eq_self {q : ℚ} (h : q.den = 1) : pyInt q = q := by
  have hq : (q.num : ℚ) = q := (Rat.den_eq_one_iff q).mp h
  unfold pyInt
  split
  · rw [← hq, Int.floor_intCast]
  · rw [← hq, Int.ceil_intCast]

/-- `_calibrate_to_rect` always establishes the rect-side consistency. -/
lemma Region.rectConsistent_calibrate (reg : Region) :
    (Region.calibrate_to_rect reg).rectConsistent := by
  simp [Region.calibrate_to_rect, Region.rectConsistent]

/-- `_calibrate_to_xy` always establishes the xy-side consistency. -/
lemma Region.xyConsistent_calibrate (reg : Region) :
    (Region.calibrate_to_xy reg).xyConsistent := by
  simp [Region.calibrate_to_xy, Region.xyConsistent]

/-- `set_rect` succeeds whenever the bounds are ordered. -/
lemma Region.set_rect_ok {l r t b : ℚ} (reg : Region) (h1 : l ≤ r) (h2 : t ≤ b) :
    Region.set_rect reg l r t b =
      .ok (Region.calibrate_to_rect { reg with left := l, right := r, top := t, bottom := b }) := by
  unfold Region.set_rect
  rw [if_neg (not_lt.mpr h1), if_neg (not_lt.mpr h2)]

lemma mk_demoRegion5 : Region.mkRegion 0 5 0 5 true = .ok demoRegion5 := by
  norm_num [Region.mkRegion, Region.set_rect, Region.calibrate_to_rect,
    Region.convert_to_int, Region.zero, pyInt, pyFloorDiv, demoRegion5]

lemma mk_demoRegion4 : Region.mkRegion 0 4 0 4 true = .ok demoRegion4 := by
  norm_num [Region.mkRegion, Region.set_rect, Region.calibrate_to_rect,
    Region.convert_to_int, Region.zero, pyInt, pyFloorDiv, demoRegion4]

/-- Encoding after decoding restores the record except that a `None`
`class_id` has been rendered as the string "None". -/
lemma encode_decode (e : EncodedDetectRegion) :
    DetectRegion.encode (DetectRegion.decode e) =
      { e with class_id := some (pyStr e.class_id) } := by
  simp [DetectRegion.encode, DetectRegion.decode, DetectRegion.mkDefault,
    Region.set_left, Region.set_right, Region.set_top, Region.set_bottom,
    Region.calibrate_to_rect, Region.convert_to_int, Region.zero]

/-- C2 (counterexample): the claim says that assignment through the individual
edge setters also raises `InvalidGeometry` when it would violate
`right >= left`, so the invariant would hold after every update.  In the code
the `left` setter performs no validation: assigning `left = 100` on the region
`Region(0, 5, 0, 5)` silently produces a state with `right < left`. -/
theorem C2_counterexample :
    Region.mkRegion 0 5 0 5 true = .ok demoRegion5 ∧
    (Region.set_left demoRegion5 100).right < (Region.set_left demoRegion5 100).left := by
  refine ⟨mk_demoRegion5, ?_⟩
  norm_num [Region.set_left, Region.calibrate_to_rect, Region.convert_to_int,
    pyInt, pyFloorDiv, demoRegion5]

/-- C2 (amended): the invariant `right >= left` and `bottom >= top` is
enforced only by `set_rect` (and hence by construction): `set_rect` fails
exactly when `right < left` or `bottom < top`, never clamps the coordinates
(in non-integer mode they are stored verbatim), and on success the invariant
holds.  The individual edge setters perform no validation at all. -/
theorem C2_amended (l r t b : ℚ) (fi : Bool) :
    ((∃ e, Region.mkRegion l r t b fi = .error e) ↔ (r < l ∨ b < t)) ∧
    (∀ reg, Region.mkRegion l r t b fi = .ok reg →
      reg.left ≤ reg.right ∧ reg.top ≤ reg.bottom ∧
      (fi = false → reg.left = l ∧ reg.right = r ∧ reg.top = t ∧ reg.bottom = b)) := by
  by_cases h1 : r < l
  · constructor
    · exact ⟨fun _ => Or.inl h1, fun _ => ⟨_, by rw [Region.mkRegion, Region.set_rect, if_pos h1]⟩⟩
    · intro reg hreg
      rw [Region.mkRegion, Region.set_rect, if_pos h1] at hreg
      cases hreg
  · by_cases h2 : b < t
    · constructor
      · exact ⟨fun _ => Or.inr h2,
          fun _ => ⟨_, by rw [Region.mkRegion, Region.set_rect, if_neg h1, if_pos h2]⟩⟩
      · intro reg hreg
        rw [Region.mkRegion, Region.set_rect, if_neg h1, if_pos h2] at hreg
        cases hreg
    · have hok := Region.set_rect_ok (Region.zero fi) (not_lt.mp h1) (not_lt.mp h2)
      constructor
      · constructor
        · rintro ⟨e, he⟩
          rw [Region.mkRegion, hok] at he
          cases he
        · intro hor
          rcases hor with h | h
          · exact absurd h h1
          · exact absurd h h2
      · intro reg hreg
        rw [Region.mkRegion, hok] at hreg
        injection hreg with hreg
        subst hreg
        cases fi
        · refine ⟨?_, ?_, ?_⟩
          · simpa [Region.calibrate_to_rect, Region.convert_to_int, Region.zero] using not_lt.mp h1
          · simpa [Region.calibrate_to_rect, Region.convert_to_int, Region.zero] using not_lt.mp h2
          · intro
            simp [Region.calibrate_to_rect, Region.convert_to_int, Region.zero]
        · refine ⟨?_, ?_, ?_⟩
          · simpa [Region.calibrate_to_rect, Region.convert_to_int, Region.zero] using
              pyInt_mono (not_lt.mp h1)
          · simpa [Region.calibrate_to_rect, Region.convert_to_int, Region.zero] using
              pyInt_mono (not_lt.mp h2)
          · intro hfi
            cases hfi

/-- C2 (witness for the amended theorem): at `Region(0, 5, 0, 5)` the
construction succeeds and the invariant holds on the result. -/
theorem C2_amended_witness :
    ((∃ e, Region.mkRegion (0:ℚ) 5 0 5 true = .error e) ↔ ((5:ℚ) < 0 ∨ (5:ℚ) < 0)) ∧
    demoRegion5.left ≤ demoRegion5.right := by
  refine ⟨(C2_amended 0 5 0 5 true).1, ?_⟩
  exact ((C2_amended 0 5 0 5 true).2 demoRegion5 mk_demoRegion5).1

/-- C3 (counterexample): the claim asserts `width == right - left` after every
mutation, in particular after `set_size` with an odd width.  In the code
`_calibrate_to_xy` places the edges at `x ± width // 2` without recomputing
`width`, so after `set_size(5, 5)` on `Region(0, 4, 0, 4)` the stored width is
5 while `right - left = 4`. -/
theorem C3_counterexample :
    Region.mkRegion 0 4 0 4 true = .ok demoRegion4 ∧
    (Region.set_size demoRegion4 5 5).width ≠
      (Region.set_size demoRegion4 5 5).right - (Region.set_size demoRegion4 5 5).left := by
  refine ⟨mk_demoRegion4, ?_⟩
  norm_num [Region.set_size, Region.calibrate_to_xy, Region.convert_to_int,
    pyInt, pyFloorDiv, demoRegion4]

/-- C3 (amended): every rect-side mutation (`set_rect` and the four edge
setters) re-establishes the rect-side consistency
`width = right - left`, `height = bottom - top`, `x = left + width // 2`,
`y = top + height // 2`; every xy-side mutation (`set_xy`, `set_size` and the
four centre/size setters) re-establishes only the xy-side consistency
`left = x - width // 2`, `right = x + width // 2`, `top = y - height // 2`,
`bottom = y + height // 2` — after an xy-side mutation with an odd width the
stored `width` differs from `right - left` by one. -/
theorem C3_amended (reg : Region) (v w h l r t b : ℚ) (xv yv : Option ℚ) :
    (Region.set_left reg v).rectConsistent ∧
    (Region.set_right reg v).rectConsistent ∧
    (Region.set_top reg v).rectConsistent ∧
    (Region.set_bottom reg v).rectConsistent ∧
    (∀ reg2, Region.set_rect reg l r t b = .ok reg2 → reg2.rectConsistent) ∧
    (Region.set_x reg v).xyConsistent ∧
    (Region.set_y reg v).xyConsistent ∧
    (Region.set_width reg v).xyConsistent ∧
    (Region.set_height reg v).xyConsistent ∧
    (Region.set_xy reg xv yv).xyConsistent ∧
    (Region.set_size reg w h).xyConsistent := by
  refine ⟨Region.rectConsistent_calibrate _, Region.rectConsistent_calibrate _,
    Region.rectConsistent_calibrate _, Region.rectConsistent_calibrate _,
    ?_, Region.xyConsistent_calibrate _, Region.xyConsistent_calibrate _,
    Region.xyConsistent_calibrate _, Region.xyConsistent_calibrate _,
    Region.xyConsistent_calibrate _, Region.xyConsistent_calibrate _⟩
  intro reg2 hreg2
  rw [Region.set_rect] at hreg2
  split at hreg2
  · cases hreg2
  · split at hreg2
    · cases hreg2
    · injection hreg2 with hreg2
      subst hreg2
      exact Region.rectConsistent_calibrate _

/-- C3 (witness for the amended theorem): the `set_rect` branch of the
amended theorem applied at the successful construction `Region(0, 5, 0, 5)`. -/
theorem C3_amended_witness : demoRegion5.rectConsistent := by
  refine (C3_amended (Region.zero true) 0 0 0 0 5 0 5 none none).2.2.2.2.1 demoRegion5 ?_
  exact mk_demoRegion5

/-- C4 (counterexample): the claim says `clone` equals the original in all
fields however the original was previously mutated.  After
`set_size(5, 5)` on `Region(0, 4, 0, 4)` the original stores `width = 5`, but
its clone is rebuilt from the edges via `set_rect` and stores `width = 4`. -/
theorem C4_counterexample :
    Region.mkRegion 0 4 0 4 true = .ok demoRegion4 ∧
    Region.clone (Region.set_size demoRegion4 5 5) = .ok demoRegion4 ∧
    (Region.set_size demoRegion4 5 5).width ≠ demoRegion4.width := by
  refine ⟨mk_demoRegion4, ?_, ?_⟩
  · norm_num [Region.clone, Region.mkRegion, Region.set_rect, Region.set_size,
      Region.calibrate_to_rect, Region.calibrate_to_xy, Region.convert_to_int,
      Region.zero, pyInt, pyFloorDiv, demoRegion4]
  · norm_num [Region.set_size, Region.calibrate_to_xy, Region.convert_to_int,
      pyInt, pyFloorDiv, demoRegion4]

/-- C4 (amended): `clone` rebuilds a fresh `Region` from the original's four
edges and `force_int` mode via `set_rect`, so it returns a `Region` equal to
the original in every field whenever the original satisfies the geometry
invariant and is rect-side consistent (as it is after construction or any
rect-side mutation); the centre/size fields are recomputed from the edges, so
after an xy-side mutation with odd size the clone differs (see the
counterexample).  In this functional model the clone is a fresh value, so it
shares no mutable state with the original. -/
theorem C4_amended (reg : Region)
    (h1 : reg.left ≤ reg.right) (h2 : reg.top ≤ reg.bottom)
    (h3 : reg.rectConsistent)
    (h4 : reg.force_int = true →
      reg.left.den = 1 ∧ reg.right.den = 1 ∧ reg.top.den = 1 ∧ reg.bottom.den = 1) :
    Region.clone reg = .ok reg := by
  obtain ⟨l', r', t', b', x', y', w', h', fi'⟩ := reg
  obtain ⟨hw, hh, hx, hy⟩ := h3
  simp only at hw hh hx hy
  rw [Region.clone, Region.mkRegion, Region.set_rect_ok _ h1 h2]
  cases fi'
  · simp [Region.calibrate_to_rect, Region.convert_to_int, Region.zero]
    exact ⟨by rw [hx, hw], by rw [hy, hh], hw.symm, hh.symm⟩
  · obtain ⟨d1, d2, d3, d4⟩ := h4 rfl
    simp only at d1 d2 d3 d4
    simp [Region.calibrate_to_rect, Region.convert_to_int, Region.zero,
      pyInt_eq_self d1, pyInt_eq_self d2, pyInt_eq_self d3, pyInt_eq_self d4]
    exact ⟨by rw [hx, hw], by rw [hy, hh], hw.symm, hh.symm⟩

/-- C4 (witness for the amended theorem): cloning `Region(0, 5, 0, 5)`
reproduces it exactly. -/
theorem C4_amended_witness : Region.clone demoRegion5 = .ok demoRegion5 := by
  refine C4_amended demoRegion5 ?_ ?_ ?_ ?_
  · norm_num [demoRegion5]
  · norm_num [demoRegion5]
  · norm_num [Region.rectConsistent, demoRegion5, pyFloorDiv]
  · intro
    refine ⟨?_, ?_, ?_, ?_⟩ <;> simp [demoRegion5]

/-- C5 (counterexample): the claim quantifies over every `DetectRegion`, but a
freshly constructed one has `class_id = None`; `encode` stores the `None` and
`decode` coerces it with `str()`, yielding the string "None", so the
round-trip does not reproduce the `class_id` field. -/
theorem C5_counterexample :
    (DetectRegion.decode (DetectRegion.encode (DetectRegion.mkDefault true))).class_id ≠
      (DetectRegion.mkDefault true).class_id := by
  simp [DetectRegion.decode, DetectRegion.encode, DetectRegion.mkDefault, pyStr]

/-- C5 (amended): for every `DetectRegion` whose `class_id` is an actual
string (as for every region produced by the association pass or by `decode`
itself), `decode(encode(r))` reproduces `r` exactly on all 11 serialized
fields — stated as: re-encoding the decoded region yields the identical flat
mapping. -/
theorem C5_amended (d : DetectRegion) (s : String) (hs : d.class_id = some s) :
    DetectRegion.encode (DetectRegion.decode (DetectRegion.encode d)) =
      DetectRegion.encode d := by
  rw [encode_decode]
  simp [DetectRegion.encode, hs, pyStr]

/-- C5 (witness for the amended theorem): exact round-trip at a concrete
detect region with `class_id = "/m/dog"`. -/
theorem C5_amended_witness :
    DetectRegion.encode (DetectRegion.decode (DetectRegion.encode demoDetect)) =
      DetectRegion.encode demoDetect :=
  C5_amended demoDetect ("/m/dog") rfl

/-- C10 (confirmed): `clone()` on a `DetectRegion` is the inherited
`Region.clone`: it reads only the geometry (and `force_int`) and returns a
plain base `Region`, so two detect regions with the same geometry but
different metadata have identical clones, and no metadata can be carried
over (the result type has no metadata fields).  On success the clone carries
the original's `force_int` mode and its four edges (truncated toward zero in
integer mode). -/
theorem C10_clone_is_base_region (d d2 : DetectRegion)
    (h1 : d.toRegion.left ≤ d.toRegion.right)
    (h2 : d.toRegion.top ≤ d.toRegion.bottom)
    (hsame : d2.toRegion = d.toRegion) :
    DetectRegion.clone d2 = DetectRegion.clone d ∧
    ∃ c : Region, DetectRegion.clone d = .ok c ∧
      c.force_int = d.toRegion.force_int ∧
      (d.toRegion.force_int = false →
        c.left = d.toRegion.left ∧ c.right = d.toRegion.right ∧
        c.top = d.toRegion.top ∧ c.bottom = d.toRegion.bottom) ∧
      (d.toRegion.force_int = true →
        c.left = pyInt d.toRegion.left ∧ c.right = pyInt d.toRegion.right ∧
        c.top = pyInt d.toRegion.top ∧ c.bottom = pyInt d.toRegion.bottom) := by
  constructor
  · show Region.clone d2.toRegion = Region.clone d.toRegion
    rw [hsame]
  · rw [DetectRegion.clone, Region.clone, Region.mkRegion, Region.set_rect_ok _ h1 h2]
    refine ⟨_, rfl, ?_, ?_, ?_⟩
    · cases hfi : d.toRegion.force_int <;>
        simp [Region.calibrate_to_rect, Region.convert_to_int, Region.zero, hfi]
    · intro hfi
      refine ⟨?_, ?_, ?_, ?_⟩ <;>
        simp [Region.calibrate_to_rect, Region.convert_to_int, Region.zero, hfi]
    · intro hfi
      refine ⟨?_, ?_, ?_, ?_⟩ <;>
        simp [Region.calibrate_to_rect, Region.convert_to_int, Region.zero, hfi]

/-- C10 (witness): cloning two detect regions that share the geometry of
`Region(0, 5, 0, 5)` but have different class/confidence/flag metadata. -/
theorem C10_witness :
    DetectRegion.clone demoDetect2 = DetectRegion.clone demoDetect ∧
    ∃ c : Region, DetectRegion.clone demoDetect = .ok c ∧
      c.force_int = demoDetect.toRegion.force_int ∧
      (demoDetect.toRegion.force_int = false →
        c.left = demoDetect.toRegion.left ∧ c.right = demoDetect.toRegion.right ∧
        c.top = demoDetect.toRegion.top ∧ c.bottom = demoDetect.toRegion.bottom) ∧
      (demoDetect.toRegion.force_int = true →
        c.left = pyInt demoDetect.toRegion.left ∧ c.right = pyInt demoDetect.toRegion.right ∧
        c.top = pyInt demoDetect.toRegion.top ∧ c.bottom = pyInt demoDetect.toRegion.bottom) := by
  refine C10_clone_is_base_region demoDetect demoDetect2 ?_ ?_ rfl
  · norm_num [demoDetect, demoRegion5]
  · norm_num [demoDetect, demoRegion5]

/-- C8 (confirmed): `loadSampleSetFromFile` fails, with `FileNotFound` naming
the path, exactly when nothing exists at the path — the existence check is the
first thing the function does, before any contents are consulted; when a file
exists, it never fails: it decodes each serialized sample and stamps every
decoded sample's `set_index` with the container's `set_index` field. -/
theorem C8_load_file_not_found (fs : String → Option SampleSetFile) (path : String) :
    (Loader.load_sample_set_from_file fs path = .error (.fileNotFound path) ↔ fs path = none) ∧
    (∀ file, fs path = some file →
      Loader.load_sample_set_from_file fs path =
        .ok (file.samples.map
          (fun e => { Sample.decode e with set_index := some file.set_index }))) := by
  cases hfs : fs path with
  | none =>
    constructor
    · exact ⟨fun _ => rfl, fun _ => by rw [Loader.load_sample_set_from_file, hfs]⟩
    · intro file hfile
      exact Option.noConfusion hfile
  | some file =>
    constructor
    · constructor
      · intro h
        rw [Loader.load_sample_set_from_file, hfs] at h
        cases h
      · intro h
        exact Option.noConfusion h
    · intro file2 hfile
      injection hfile with hfile
      subst hfile
      simp only [Loader.load_sample_set_from_file, hfs, List.map_map]
      rfl

/-- C8 (witness): loading a present file succeeds with the stamped samples;
loading a missing path fails with `FileNotFound`. -/
theorem C8_witness :
    Loader.load_sample_set_from_file demoFS ("sample_set_7.json") =
      .ok (demoFile.samples.map
        (fun e => { Sample.decode e with set_index := some demoFile.set_index })) ∧
    (Loader.load_sample_set_from_file demoFS ("missing.json") =
        .error (.fileNotFound ("missing.json")) ↔ demoFS ("missing.json") = none) := by
  constructor
  · exact (C8_load_file_not_found demoFS ("sample_set_7.json")).2 demoFile (by simp [demoFS])
  · exact (C8_load_file_not_found demoFS ("missing.json")).1

/-- Chunk `j` is emitted by the export loop exactly when `(j+1)*size` is
strictly below the sample count. -/
lemma chunk_lt_iff (n size j : ℕ) (hs : 0 < size) :
    (j + 1) * size < n ↔ j < (n - 1) / size := by
  have h1 : (j < (n - 1) / size) ↔ (j + 1 ≤ (n - 1) / size) := Iff.rfl
  rw [h1, Nat.le_div_iff_mul_le hs]
  have hm : 0 < (j + 1) * size := Nat.mul_pos j.succ_pos hs
  set m := (j + 1) * size with hm2
  omega

/-- Closed form of the export loop: starting at chunk `i` with enough fuel it
emits exactly the chunks `i, i+1, ..., (n-1)/size - 1`. -/
lemma exportLoop_eq (l : List Sample) (size : ℕ) (hs : 0 < size) :
    ∀ fuel i, (l.length - 1) / size ≤ i + fuel →
      exportLoop l size fuel i =
        (List.range' i ((l.length - 1) / size - i)).map
          (fun j => (j, (l.drop (j * size)).take size)) := by
  intro fuel
  induction fuel with
  | zero =>
    intro i hi
    have h0 : (l.length - 1) / size - i = 0 := by omega
    rw [h0]
    rfl
  | succ fuel ih =>
    intro i hi
    rw [exportLoop]
    by_cases hcond : (i + 1) * size ≥ l.length
    · rw [if_pos hcond]
      have hKi : (l.length - 1) / size ≤ i := by
        by_contra hlt
        push_neg at hlt
        exact absurd ((chunk_lt_iff l.length size i hs).mpr hlt) (by omega)
      have h0 : (l.length - 1) / size - i = 0 := by omega
      rw [h0]
      rfl
    · rw [if_neg hcond]
      push_neg at hcond
      have hiK : i < (l.length - 1) / size := (chunk_lt_iff l.length size i hs).mp hcond
      have h2 : (l.length - 1) / size - i = ((l.length - 1) / size - (i + 1)) + 1 := by omega
      rw [h2, List.range'_succ, List.map_cons, ih (i + 1) (by omega)]

/-- C1 (counterexample): the claim says that when the number of samples is an
exact multiple of the chunk size every chunk is written.  With 2 samples and
`size = 2` the loop's first test is `(0+1)*2 >= 2`, so it breaks before
writing anything: the single full chunk is dropped. -/
theorem C1_counterexample :
    demoDict.length = 2 ∧ 2 % 2 = 0 ∧ Loader.export_samples demoDict 2 = [] := by
  refine ⟨rfl, rfl, rfl⟩

/-- C1 (amended): for every positive chunk size, `export_samples` emits, in
iteration order, exactly the consecutive chunks `0, 1, ..., (n-1)/size - 1`
(each of exactly `size` samples, `chunk i = values[i*size:(i+1)*size]`),
i.e. one fewer than the number of slices covering the collection: the final
chunk is always dropped — a partial final chunk when `size` does not divide
`n`, and a full final chunk when it does. -/
theorem C1_amended (d : SampleDict) (size : ℕ) (hs : 0 < size) :
    Loader.export_samples d size =
      (List.range ((d.length - 1) / size)).map
        (fun i => (i, ((d.map (fun p => p.2)).drop (i * size)).take size)) ∧
    ∀ pr ∈ Loader.export_samples d size, pr.2.length = size := by
  have hlen : (d.map (fun p => p.2)).length = d.length := List.length_map _ _
  have hmain : Loader.export_samples d size =
      (List.range ((d.length - 1) / size)).map
        (fun i => (i, ((d.map (fun p => p.2)).drop (i * size)).take size)) := by
    rw [Loader.export_samples, exportLoop_eq (d.map (fun p => p.2)) size hs (d.length + 1) 0
      (by rw [hlen]; have := Nat.div_le_self (d.length - 1) size; omega)]
    rw [hlen, Nat.sub_zero, ← List.range_eq_range']
  refine ⟨hmain, ?_⟩
  intro pr hpr
  rw [hmain] at hpr
  rw [List.mem_map] at hpr
  obtain ⟨i, hi, hpr⟩ := hpr
  rw [List.mem_range] at hi
  subst hpr
  have hcov : (i + 1) * size < d.length := by
    have := (chunk_lt_iff d.length size i hs).mpr hi
    exact this
  simp only [List.length_take, List.length_drop, hlen]
  have : size ≤ d.length - i * size := by
    have hexp : (i + 1) * size = i * size + size := by ring
    omega
  omega

/-- C1 (witness for the amended theorem): with two samples and chunk size 1
exactly one single-sample chunk is emitted (the second full chunk is the
dropped final one). -/
theorem C1_amended_witness :
    Loader.export_samples demoDict 1 =
      (List.range ((demoDict.length - 1) / 1)).map
        (fun i => (i, ((demoDict.map (fun p => p.2)).drop (i * 1)).take 1)) ∧
    ∀ pr ∈ Loader.export_samples demoDict 1, pr.2.length = 1 :=
  C1_amended demoDict 1 (by norm_num)

/-- `find?` over the in-place branch of `dictInsert`. -/
lemma find_map_insert (d : SampleDict) (k k2 : String) (v : Sample) :
    (d.map (fun p => if p.1 == k then (k, v) else p)).find? (fun p => p.1 == k2) =
      if k2 = k then
        (if d.any (fun p => p.1 == k) then some (k, v) else none)
      else d.find? (fun p => p.1 == k2) := by
  induction d with
  | nil => by_cases h : k2 = k <;> simp [h]
  | cons p d ih =>
    rw [List.map_cons, List.any_cons]
    by_cases hpk : p.1 = k
    · rw [if_pos (by simp [hpk])]
      by_cases h : k2 = k
      · subst h
        rw [List.find?_cons_of_pos _ (by simp), if_pos rfl, if_pos (by simp [hpk])]
      · rw [List.find?_cons_of_neg _ (by simp [Ne.symm h]), ih, if_neg h, if_neg h,
          List.find?_cons_of_neg _ (by simp [hpk, Ne.symm h])]
    · rw [if_neg (by simp [hpk])]
      by_cases h : k2 = k
      · subst h
        rw [List.find?_cons_of_neg _ (by simp [hpk]), ih, if_pos rfl, if_pos rfl]
        have hb : (p.1 == k2) = false := beq_eq_false_iff_ne.mpr hpk
        rw [hb, Bool.false_or]
      · by_cases hp2 : p.1 = k2
        · rw [List.find?_cons_of_pos _ (by simp [hp2]), if_neg h,
            List.find?_cons_of_pos _ (by simp [hp2])]
        · rw [List.find?_cons_of_neg _ (by simp [hp2]), ih, if_neg h, if_neg h,
            List.find?_cons_of_neg _ (by simp [hp2])]

/-- Lookup after `dictInsert`: the inserted value at its key, everything else
unchanged. -/
lemma dictFind_insert (d : SampleDict) (k k2 : String) (v : Sample) :
    dictFind (dictInsert d k v) k2 = if k2 = k then some v else dictFind d k2 := by
  rw [dictFind, dictInsert]
  by_cases hmem : d.any (fun p => p.1 == k)
  · rw [if_pos hmem, find_map_insert]
    by_cases h : k2 = k
    · rw [if_pos h, if_pos hmem, if_pos h]
      rfl
    · rw [if_neg h, if_neg h, dictFind]
  · rw [if_neg hmem, List.find?_append]
    by_cases h : k2 = k
    · subst h
      have hnone : d.find? (fun p => p.1 == k2) = none := by
        rw [List.find?_eq_none]
        intro x hx hcon
        exact hmem (List.any_eq_true.mpr ⟨x, hx, hcon⟩)
      rw [hnone, if_pos rfl]
      simp [List.find?]
    · rw [if_neg h]
      have hsingle : List.find? (fun p => p.1 == k2) [(k, v)] = none := by
        have hb : (k == k2) = false := beq_eq_false_iff_ne.mpr (Ne.symm h)
        simp [List.find?, hb]
      rw [hsingle, dictFind]
      simp

/-- Folding one more image-index row is one `dictInsert`. -/
lemma create_samples_concat (rows : List IndexRow) (row : IndexRow) :
    Loader.create_samples (rows ++ [row]) =
      dictInsert (Loader.create_samples rows) (sampleKey row.1) (mkIndexSample row) := by
  rw [Loader.create_samples, Loader.create_samples, List.foldl_append]
  rfl

/-- C9 (counterexample): the claim says `create_samples` strips the file
extension, so the row `("a.b.jpg", url)` would be stored under key "a.b".
The code takes `row[0].split(".")[0]`, the part before the FIRST dot, so the
sample is stored under "a" and no sample exists under "a.b". -/
theorem C9_counterexample :
    dictFind (Loader.create_samples [("a.b.jpg", "http://u")]) ("a.b") = none ∧
    dictFind (Loader.create_samples [("a.b.jpg", "http://u")]) ("a") =
      some { key := "a", set_index := none, remote_path := "http://u",
             detect_regions := [] } := by
  constructor
  · decide
  · decide

/-- C9 (amended): for every image-index CSV and key `k`, the sample stored at
`k` is built from the LAST row whose column 0, truncated at its first dot,
equals `k` (last-write-wins, no merge, no warning): its `key` is that
truncated column 0 and its `remote_path` is the row's column 1; if no row
derives `k`, no sample is stored there. -/
theorem C9_amended (rows : List IndexRow) (k : String) :
    dictFind (Loader.create_samples rows) k =
      ((rows.filter (fun row => sampleKey row.1 == k)).getLast?).map mkIndexSample := by
  induction rows using List.reverseRecOn with
  | nil => rfl
  | append_singleton rows row ih =>
    rw [create_samples_concat, dictFind_insert, List.filter_append]
    by_cases h : k = sampleKey row.1
    · rw [if_pos h]
      have hone : List.filter (fun r => sampleKey r.1 == k) [row] = [row] := by
        simp [List.filter, h]
      rw [hone, List.getLast?_concat]
      rfl
    · rw [if_neg h]
      have hzero : List.filter (fun r => sampleKey r.1 == k) [row] = [] := by
        have hb : (sampleKey row.1 == k) = false := beq_eq_false_iff_ne.mpr (Ne.symm h)
        simp [List.filter, hb]
      rw [hzero, List.append_nil, ih]

/-- `key in samples` in terms of the stored key list. -/
lemma dictFind_ne_none_iff (d : SampleDict) (k : String) :
    dictFind d k ≠ none ↔ k ∈ d.map (fun p => p.1) := by
  rw [dictFind]
  cases hf : d.find? (fun p => p.1 == k) with
  | none =>
    simp only [Option.map_none', ne_eq, not_true_eq_false, false_iff]
    rw [List.find?_eq_none] at hf
    intro hmem
    rw [List.mem_map] at hmem
    obtain ⟨p, hp, hpk⟩ := hmem
    exact hf p hp (by simp [hpk])
  | some p =>
    simp only [Option.map_some', ne_eq, reduceCtorEq, not_false_eq_true, true_iff]
    rw [List.mem_map]
    refine ⟨p, List.mem_of_find?_eq_some hf, ?_⟩
    have := List.find?_some hf
    simpa using this

/-- Membership in a `dictInsert` result. -/
lemma mem_dictInsert {d : SampleDict} {k : String} {v : Sample} {p : String × Sample}
    (hp : p ∈ dictInsert d k v) : p ∈ d ∨ p = (k, v) := by
  rw [dictInsert] at hp
  split at hp
  · rw [List.mem_map] at hp
    obtain ⟨q, hq, hpq⟩ := hp
    by_cases hb : q.1 = k
    · right
      rw [← hpq]
      simp [hb]
    · left
      have hbf : (q.1 == k) = false := beq_eq_false_iff_ne.mpr hb
      rw [← hpq, hbf]
      simpa using hq
  · rw [List.mem_append] at hp
    rcases hp with hp | hp
    · exact Or.inl hp
    · right
      simpa using hp

/-- `dictInsert` for a key already present keeps the key list unchanged. -/
lemma dictInsert_keys_of_found (d : SampleDict) (k : String) (v sample : Sample)
    (hfind : dictFind d k = some sample) :
    (dictInsert d k v).map (fun p => p.1) = d.map (fun p => p.1) := by
  have hany : d.any (fun p => p.1 == k) = true := by
    rw [List.any_eq_true]
    have hmem : k ∈ d.map (fun p => p.1) :=
      (dictFind_ne_none_iff d k).mp (by rw [hfind]; exact fun hc => Option.noConfusion hc)
    rw [List.mem_map] at hmem
    obtain ⟨p, hp, hpk⟩ := hmem
    exact ⟨p, hp, by simp [hpk]⟩
  rw [dictInsert, if_pos hany, List.map_map]
  apply List.map_congr_left
  intro p hp
  by_cases hb : p.1 = k <;> simp [hb]

/-- Updating the found entry in place and then appending a batch of rows is
the same as appending the whole batch with the head row included. -/
lemma map_insert_append (row : GTRow) (gt : List GTRow) (d : SampleDict)
    (hnd : (d.map (fun p => p.1)).Nodup)
    (sample : Sample) (hfind : dictFind d row.key = some sample) :
    (dictInsert d row.key
        { sample with detect_regions := sample.detect_regions ++ [mkRowDetect row] }).map
      (appendRowsTo gt) = d.map (appendRowsTo (row :: gt)) := by
  have hany : d.any (fun p => p.1 == row.key) = true := by
    rw [List.any_eq_true]
    have hmem : row.key ∈ d.map (fun p => p.1) :=
      (dictFind_ne_none_iff d row.key).mp
        (by rw [hfind]; exact fun hc => Option.noConfusion hc)
    rw [List.mem_map] at hmem
    obtain ⟨p, hp, hpk⟩ := hmem
    exact ⟨p, hp, by simp [hpk]⟩
  obtain ⟨q, hqfind⟩ : ∃ q, d.find? (fun p => p.1 == row.key) = some q := by
    rw [dictFind] at hfind
    cases hq : d.find? (fun p => p.1 == row.key) with
    | none => rw [hq] at hfind; cases hfind
    | some q => exact ⟨q, rfl⟩
  have hq2 : sample = q.2 := by
    rw [dictFind, hqfind] at hfind
    injection hfind with hfind
    exact hfind.symm
  have hqk : q.1 = row.key := by simpa using List.find?_some hqfind
  have hqmem : q ∈ d := List.mem_of_find?_eq_some hqfind
  rw [dictInsert, if_pos hany, List.map_map]
  apply List.map_congr_left
  intro p hp
  by_cases hb : p.1 = row.key
  · have hpq : p = q := List.inj_on_of_nodup_map hnd hp hqmem (by rw [hb, hqk])
    rw [hpq]
    have hbt : (q.1 == row.key) = true := by simp [hqk]
    have hfilt : (row :: gt).filter (fun r => r.key == q.1) =
        row :: gt.filter (fun r => r.key == q.1) := by
      rw [List.filter_cons, if_pos (by simp [hqk])]
    simp only [Function.comp_apply, hbt, if_true, appendRowsTo, hfilt, List.map_cons, ← hq2]
    rw [Prod.mk.injEq]
    refine ⟨hqk.symm, ?_⟩
    rw [List.append_assoc, hqk]
    rfl
  · have hbf : (p.1 == row.key) = false := beq_eq_false_iff_ne.mpr hb
    have hfilt : (row :: gt).filter (fun r => r.key == p.1) =
        gt.filter (fun r => r.key == p.1) := by
      rw [List.filter_cons,
        if_neg (by simp [beq_eq_false_iff_ne.mpr (fun hc => hb hc.symm)])]
    simp only [Function.comp_apply, hbf, Bool.false_eq_true, if_false, appendRowsTo, hfilt]

/-- Closed form of the association pass: when every row whose key matches a
sample has well-ordered bounds, the pass succeeds and every dict entry ends
with its original regions followed by one `DetectRegion` per matching row, in
row order. -/
lemma associate_fold (gt : List GTRow) :
    ∀ d : SampleDict, (d.map (fun p => p.1)).Nodup →
      (∀ row ∈ gt, dictFind d row.key ≠ none →
        row.x_min ≤ row.x_max ∧ row.y_min ≤ row.y_max) →
      Loader.associate_boxes_with_samples d gt = .ok (d.map (appendRowsTo gt)) := by
  induction gt with
  | nil =>
    intro d hnd hval
    rw [Loader.associate_boxes_with_samples, List.foldlM_nil]
    have hid : d.map (appendRowsTo []) = d := by
      have h2 : ∀ p ∈ d, appendRowsTo [] p = p := by
        intro p hp
        rw [appendRowsTo]
        simp
      rw [List.map_congr_left h2]
      simp
    rw [hid]
    rfl
  | cons row gt ih =>
    intro d hnd hval
    rw [Loader.associate_boxes_with_samples, List.foldlM_cons]
    cases hfind : dictFind d row.key with
    | none =>
      have hstep : associateRow d row = .ok d := by
        rw [associateRow, hfind]
      rw [hstep]
      show List.foldlM associateRow d gt = _
      have hval' : ∀ row' ∈ gt, dictFind d row'.key ≠ none →
          row'.x_min ≤ row'.x_max ∧ row'.y_min ≤ row'.y_max :=
        fun row' hrow' => hval row' (List.mem_cons_of_mem _ hrow')
      have hmain := ih d hnd hval'
      rw [Loader.associate_boxes_with_samples] at hmain
      rw [hmain]
      have hnk : ∀ p ∈ d, appendRowsTo gt p = appendRowsTo (row :: gt) p := by
        intro p hp
        have hne : (row.key == p.1) = false := by
          refine beq_eq_false_iff_ne.mpr ?_
          intro hc
          have : dictFind d row.key ≠ none :=
            (dictFind_ne_none_iff d row.key).mpr
              (List.mem_map.mpr ⟨p, hp, hc.symm⟩)
          exact this hfind
        rw [appendRowsTo, appendRowsTo, List.filter_cons,
          if_neg (by simp [hne])]
      rw [List.map_congr_left hnk]
    | some sample =>
      have hbounds := hval row (List.mem_cons_self row gt)
        (by rw [hfind]; exact fun hc => Option.noConfusion hc)
      have hsr : (DetectRegion.mkDefault false).toRegion.set_rect
          row.x_min row.x_max row.y_min row.y_max = .ok (mkRowDetect row).toRegion :=
        Region.set_rect_ok _ hbounds.1 hbounds.2
      have hstep : associateRow d row = .ok (dictInsert d row.key
          { sample with detect_regions := sample.detect_regions ++ [mkRowDetect row] }) := by
        rw [associateRow, hfind, hsr]
        rfl
      rw [hstep]
      show List.foldlM associateRow (dictInsert d row.key
        { sample with detect_regions := sample.detect_regions ++ [mkRowDetect row] }) gt = _
      have hkeys := dictInsert_keys_of_found d row.key
        { sample with detect_regions := sample.detect_regions ++ [mkRowDetect row] }
        sample hfind
      have hnd' : ((dictInsert d row.key
          { sample with detect_regions := sample.detect_regions ++ [mkRowDetect row] }).map
            (fun p => p.1)).Nodup := by
        rw [hkeys]; exact hnd
      have hval' : ∀ row' ∈ gt, dictFind (dictInsert d row.key
          { sample with detect_regions := sample.detect_regions ++ [mkRowDetect row] })
            row'.key ≠ none →
          row'.x_min ≤ row'.x_max ∧ row'.y_min ≤ row'.y_max := by
        intro row' hrow' hne
        refine hval row' (List.mem_cons_of_mem _ hrow') ?_
        rw [dictFind_ne_none_iff] at hne ⊢
        rw [hkeys] at hne
        exact hne
      have hmain := ih _ hnd' hval'
      rw [Loader.associate_boxes_with_samples] at hmain
      rw [hmain, map_insert_append row gt d hnd sample hfind]

/-- The key predicate used by `dictInsert` agrees with key-list membership. -/
lemma any_key_iff_mem (d : SampleDict) (k : String) :
    d.any (fun p => p.1 == k) = true ↔ k ∈ d.map (fun p => p.1) := by
  rw [List.any_eq_true, List.mem_map]
  constructor
  · rintro ⟨p, hp, hpk⟩
    exact ⟨p, hp, by simpa using hpk⟩
  · rintro ⟨p, hp, hpk⟩
    exact ⟨p, hp, by simp [hpk]⟩

/-- Key list after a `dictInsert`: unchanged when present, appended when new. -/
lemma dictInsert_keys (d : SampleDict) (k : String) (v : Sample) :
    (dictInsert d k v).map (fun p => p.1) =
      if d.any (fun p => p.1 == k) then d.map (fun p => p.1)
      else d.map (fun p => p.1) ++ [k] := by
  by_cases hc : d.any (fun p => p.1 == k)
  · rw [dictInsert, if_pos hc, if_pos hc, List.map_map]
    apply List.map_congr_left
    intro p hp
    by_cases hb : p.1 = k <;> simp [hb]
  · rw [dictInsert, if_neg hc, if_neg hc, List.map_append]
    rfl

/-- Invariants of the `create_samples` fold: distinct keys, and the key set is
the set of derived keys of the rows (plus whatever was already there). -/
lemma create_fold_keys (rows : List IndexRow) :
    ∀ d : SampleDict, (d.map (fun p => p.1)).Nodup →
      ((rows.foldl (fun d row => dictInsert d (sampleKey row.1) (mkIndexSample row)) d).map
          (fun p => p.1)).Nodup ∧
      ∀ k, k ∈ (rows.foldl (fun d row => dictInsert d (sampleKey row.1) (mkIndexSample row))
            d).map (fun p => p.1) ↔
        (k ∈ d.map (fun p => p.1) ∨ k ∈ rows.map (fun row => sampleKey row.1)) := by
  induction rows with
  | nil =>
    intro d hnd
    exact ⟨hnd, fun k => by simp⟩
  | cons row rows ih =>
    intro d hnd
    rw [List.foldl_cons]
    have hkeys := dictInsert_keys d (sampleKey row.1) (mkIndexSample row)
    by_cases hc : d.any (fun p => p.1 == sampleKey row.1)
    · rw [if_pos hc] at hkeys
      have hnd' : ((dictInsert d (sampleKey row.1) (mkIndexSample row)).map
          (fun p => p.1)).Nodup := by
        rw [hkeys]; exact hnd
      obtain ⟨h1, h2⟩ := ih _ hnd'
      refine ⟨h1, fun k => ?_⟩
      rw [h2 k, hkeys, List.map_cons, List.mem_cons]
      constructor
      · rintro (h | h)
        · exact Or.inl h
        · exact Or.inr (Or.inr h)
      · rintro (h | h | h)
        · exact Or.inl h
        · subst h
          exact Or.inl ((any_key_iff_mem d _).mp hc)
        · exact Or.inr h
    · rw [if_neg hc] at hkeys
      have hnm : sampleKey row.1 ∉ d.map (fun p => p.1) :=
        fun hm => hc ((any_key_iff_mem d _).mpr hm)
      have hnd' : ((dictInsert d (sampleKey row.1) (mkIndexSample row)).map
          (fun p => p.1)).Nodup := by
        rw [hkeys, List.nodup_append]
        refine ⟨hnd, List.nodup_singleton _, ?_⟩
        intro a ha hb
        rw [List.mem_singleton] at hb
        subst hb
        exact hnm ha
      obtain ⟨h1, h2⟩ := ih _ hnd'
      refine ⟨h1, fun k => ?_⟩
      rw [h2 k, hkeys, List.mem_append, List.mem_singleton, List.map_cons, List.mem_cons]
      tauto

/-- Samples created by the fold keep empty region lists. -/
lemma create_fold_regions (rows : List IndexRow) :
    ∀ d : SampleDict, (∀ p ∈ d, p.2.detect_regions = []) →
      ∀ p ∈ rows.foldl (fun d row => dictInsert d (sampleKey row.1) (mkIndexSample row)) d,
        p.2.detect_regions = [] := by
  induction rows with
  | nil =>
    intro d h
    exact h
  | cons row rows ih =>
    intro d h
    rw [List.foldl_cons]
    refine ih _ ?_
    intro p hp
    rcases mem_dictInsert hp with hp | hp
    · exact h p hp
    · rw [hp]
      rfl

/-- Keys of `create_samples` are distinct. -/
lemma create_keys_nodup (idx : List IndexRow) :
    ((Loader.create_samples idx).map (fun p => p.1)).Nodup :=
  (create_fold_keys idx [] List.nodup_nil).1

/-- The keys of `create_samples` are exactly the derived keys of the rows. -/
lemma create_keys_mem (idx : List IndexRow) (k : String) :
    k ∈ (Loader.create_samples idx).map (fun p => p.1) ↔
      k ∈ idx.map (fun row => sampleKey row.1) := by
  have h := (create_fold_keys idx [] List.nodup_nil).2 k
  simpa using h

/-- Samples fresh out of `create_samples` hold no regions. -/
lemma create_regions_empty (idx : List IndexRow) :
    ∀ p ∈ Loader.create_samples idx, p.2.detect_regions = [] :=
  create_fold_regions idx [] (by intro p hp; cases hp)

/-- Splitting a count over a fresh key and a key set it does not contain. -/
lemma countP_key_split (gt : List GTRow) (k0 : String) (ks : List String) (h : k0 ∉ ks) :
    gt.countP (fun row => row.key == k0) + gt.countP (fun row => decide (row.key ∈ ks)) =
      gt.countP (fun row => decide (row.key ∈ k0 :: ks)) := by
  induction gt with
  | nil => rfl
  | cons row gt ih =>
    rw [List.countP_cons, List.countP_cons, List.countP_cons]
    by_cases hb : row.key = k0
    · have h1 : (row.key == k0) = true := by simp [hb]
      have h2 : decide (row.key ∈ ks) = false := by
        simp only [decide_eq_false_iff_not]
        rw [hb]
        exact h
      have h3 : decide (row.key ∈ k0 :: ks) = true := by simp [hb]
      rw [h1, h2, h3]
      simp only [if_true, if_false, Bool.false_eq_true]
      omega
    · have h1 : (row.key == k0) = false := beq_eq_false_iff_ne.mpr hb
      by_cases hm : row.key ∈ ks
      · have h2 : decide (row.key ∈ ks) = true := by simp [hm]
        have h3 : decide (row.key ∈ k0 :: ks) = true := by simp [hm]
        rw [h1, h2, h3]
        simp only [if_true, if_false, Bool.false_eq_true]
        omega
      · have h2 : decide (row.key ∈ ks) = false := by simp [hm]
        have h3 : decide (row.key ∈ k0 :: ks) = false := by simp [hb, hm]
        rw [h1, h2, h3]
        simp only [if_false, Bool.false_eq_true]
        omega

/-- Summing per-key match counts over a duplicate-free key list counts the
rows whose key belongs to the list. -/
lemma sum_filter_lengths (gt : List GTRow) :
    ∀ ks : List String, ks.Nodup →
      (ks.map (fun k => (gt.filter (fun row => row.key == k)).length)).sum =
        gt.countP (fun row => decide (row.key ∈ ks)) := by
  intro ks
  induction ks with
  | nil =>
    intro _
    simp
  | cons k0 ks ih =>
    intro hnd
    rw [List.map_cons, List.sum_cons, ih hnd.of_cons, ← List.countP_eq_length_filter,
      countP_key_split gt k0 ks (List.nodup_cons.mp hnd).1]

/-- C6 (counterexample): the claim says every matching ground-truth row
appends exactly one `DetectRegion` and the pass never errors.  A matching row
with `x_max < x_min` makes the constructed region's `set_rect` raise, aborting
the whole association pass instead of appending anything. -/
theorem C6_counterexample :
    Loader.associate_boxes_with_samples (Loader.create_samples demoIdx) [demoBadRow] =
      .error ("Invalid Input: Right must be greater than left.") := by
  have hfind : dictFind (Loader.create_samples demoIdx) demoBadRow.key =
      some (mkIndexSample ("img1.jpg", "http://u1")) := by rfl
  rw [Loader.associate_boxes_with_samples, List.foldlM_cons, associateRow, hfind]
  have hsr : (DetectRegion.mkDefault false).toRegion.set_rect
      demoBadRow.x_min demoBadRow.x_max demoBadRow.y_min demoBadRow.y_max =
      .error ("Invalid Input: Right must be greater than left.") := by
    rw [Region.set_rect, if_pos (by norm_num [demoBadRow])]
  rw [hsr]
  rfl

/-- C6 (amended): for an image-index CSV and a ground-truth CSV in which every
row that references a present key has well-ordered bounds
(`x_max >= x_min`, `y_max >= y_min`), `create_samples` followed by
`associate_boxes_with_samples` succeeds and yields one sample per distinct
derived key of the index (exactly N), the keys unchanged and duplicate-free;
every matching row appends exactly one `DetectRegion` built from its columns
to the sample with its key, in row order, and rows whose key is absent are
silently skipped, so the total number of regions is exactly the number K of
matching rows. -/
theorem C6_amended (idx : List IndexRow) (gt : List GTRow)
    (hval : ∀ row ∈ gt, dictFind (Loader.create_samples idx) row.key ≠ none →
      row.x_min ≤ row.x_max ∧ row.y_min ≤ row.y_max) :
    ∃ d2, Loader.associate_boxes_with_samples (Loader.create_samples idx) gt = .ok d2 ∧
      d2 = (Loader.create_samples idx).map (appendRowsTo gt) ∧
      d2.map (fun p => p.1) = (Loader.create_samples idx).map (fun p => p.1) ∧
      (d2.map (fun p => p.1)).Nodup ∧
      (∀ k, k ∈ d2.map (fun p => p.1) ↔ k ∈ idx.map (fun row => sampleKey row.1)) ∧
      (∀ p ∈ d2, p.2.detect_regions =
        (gt.filter (fun row => row.key == p.1)).map mkRowDetect) ∧
      (d2.map (fun p => p.2.detect_regions.length)).sum =
        gt.countP (fun row => (dictFind (Loader.create_samples idx) row.key).isSome) := by
  have hassoc := associate_fold gt (Loader.create_samples idx) (create_keys_nodup idx) hval
  have hk : ((Loader.create_samples idx).map (appendRowsTo gt)).map (fun p => p.1) =
      (Loader.create_samples idx).map (fun p => p.1) := by
    rw [List.map_map]
    apply List.map_congr_left
    intro p hp
    rfl
  refine ⟨(Loader.create_samples idx).map (appendRowsTo gt), hassoc, rfl, hk, ?_, ?_, ?_, ?_⟩
  · rw [hk]
    exact create_keys_nodup idx
  · intro k
    rw [hk]
    exact create_keys_mem idx k
  · intro p hp
    rw [List.mem_map] at hp
    obtain ⟨q, hq, hpq⟩ := hp
    rw [← hpq, appendRowsTo]
    simp [create_regions_empty idx q hq]
  · have hlen : ((Loader.create_samples idx).map (appendRowsTo gt)).map
        (fun p => p.2.detect_regions.length) =
        ((Loader.create_samples idx).map (fun p => p.1)).map
          (fun k => (gt.filter (fun row => row.key == k)).length) := by
      rw [List.map_map, List.map_map]
      apply List.map_congr_left
      intro p hp
      simp [appendRowsTo, create_regions_empty idx p hp]
    rw [hlen, sum_filter_lengths gt _ (create_keys_nodup idx)]
    apply List.countP_congr
    intro row hrow
    rw [decide_eq_true_eq, Option.isSome_iff_ne_none, dictFind_ne_none_iff]

/-- C6 (witness for the amended theorem): two index rows and two ground-truth
rows of which one matches: two samples, one region total, placed on "img1". -/
theorem C6_amended_witness :
    ∃ d2, Loader.associate_boxes_with_samples (Loader.create_samples demoIdx) demoGT =
        .ok d2 ∧
      d2 = (Loader.create_samples demoIdx).map (appendRowsTo demoGT) ∧
      d2.map (fun p => p.1) = (Loader.create_samples demoIdx).map (fun p => p.1) ∧
      (d2.map (fun p => p.1)).Nodup ∧
      (∀ k, k ∈ d2.map (fun p => p.1) ↔ k ∈ demoIdx.map (fun row => sampleKey row.1)) ∧
      (∀ p ∈ d2, p.2.detect_regions =
        (demoGT.filter (fun row => row.key == p.1)).map mkRowDetect) ∧
      (d2.map (fun p => p.2.detect_regions.length)).sum =
        demoGT.countP (fun row => (dictFind (Loader.create_samples demoIdx) row.key).isSome) := by
  refine C6_amended demoIdx demoGT ?_
  intro row hrow hne
  rcases List.mem_cons.mp hrow with h | h
  · subst h
    constructor
    · norm_num [demoRow1]
    · norm_num [demoRow1]
  · rcases List.mem_cons.mp h with h | h
    · subst h
      exact absurd (by rfl :
        dictFind (Loader.create_samples demoIdx) demoRow2.key = none) hne
    · cases h

lemma hdemoFSN : demoFSN ("fn") = some (Loader.write_samples [demoSampleN] 0) := by
  simp [demoFSN]

/-- C7 (counterexample): the claim says the samples loaded back from a
written partition are equal to the originals in `detect_regions`.  A sample
whose region still has the default `class_id = None` comes back with
`class_id = "None"` (the string), so the regions differ. -/
theorem C7_counterexample :
    (0, [demoSampleN]) ∈ Loader.export_samples [("n", demoSampleN), ("b", demoSampleB)] 1 ∧
    ∃ ss, Loader.load_sample_set_from_file demoFSN ("fn") = .ok ss ∧
      ss.map (fun s => s.detect_regions.map (fun det => det.class_id)) = [[some ("None")]] ∧
      demoSampleN.detect_regions.map (fun det => det.class_id) = [none] := by
  constructor
  · exact List.mem_cons_self _ _
  · refine ⟨_, by rw [Loader.load_sample_set_from_file, hdemoFSN], ?_, ?_⟩
    · rfl
    · rfl

/-- C7 (amended): for every chunk `(i, chunk)` that `export_samples` writes,
provided every region in the chunk carries a string `class_id` (true of every
region the association pass produces), loading the written partition file
succeeds and returns, in order, samples with the originals' `key` and
`remote_path`, with `set_index` stamped to `i`, and with detect-region lists
equal to the originals on all 11 serialized fields of every region (a `None`
`class_id` instead comes back as the string "None", see the counterexample). -/
theorem C7_amended (d : SampleDict) (size : ℕ) (i : ℕ) (chunk : List Sample)
    (fs : String → Option SampleSetFile) (path : String)
    (_hmem : (i, chunk) ∈ Loader.export_samples d size)
    (hfs : fs path = some (Loader.write_samples chunk (i : ℤ)))
    (hcid : ∀ s ∈ chunk, ∀ det ∈ s.detect_regions, det.class_id ≠ none) :
    ∃ ss, Loader.load_sample_set_from_file fs path = .ok ss ∧
      ss.map (fun s => (s.key, s.remote_path, s.set_index)) =
        chunk.map (fun s => (s.key, s.remote_path, some (i : ℤ))) ∧
      ss.map (fun s => s.detect_regions.map DetectRegion.encode) =
        chunk.map (fun s => s.detect_regions.map DetectRegion.encode) := by
  rw [Loader.load_sample_set_from_file, hfs]
  refine ⟨_, rfl, ?_, ?_⟩
  · rw [Loader.write_samples]
    simp only [List.map_map]
    apply List.map_congr_left
    intro s hs
    rfl
  · rw [Loader.write_samples]
    simp only [List.map_map]
    apply List.map_congr_left
    intro s hs
    show ((Sample.decode (Sample.encode s)).detect_regions).map DetectRegion.encode =
      s.detect_regions.map DetectRegion.encode
    rw [Sample.decode, Sample.encode]
    simp only [List.map_map]
    apply List.map_congr_left
    intro det hdet
    show DetectRegion.encode (DetectRegion.decode (DetectRegion.encode det)) =
      DetectRegion.encode det
    rw [encode_decode]
    obtain ⟨s2, hs2⟩ := Option.ne_none_iff_exists'.mp (hcid s hs det hdet)
    simp [DetectRegion.encode, hs2, pyStr]

/-- C7 (witness for the amended theorem): round-tripping the single chunk
`(0, [demoSample])` written by `export_samples` over a two-sample dict. -/
theorem C7_amended_witness :
    ∃ ss, Loader.load_sample_set_from_file demoFS0 ("f0") = .ok ss ∧
      ss.map (fun s => (s.key, s.remote_path, s.set_index)) =
        [demoSample].map (fun s => (s.key, s.remote_path, some ((0 : ℕ) : ℤ))) ∧
      ss.map (fun s => s.detect_regions.map DetectRegion.encode) =
        [demoSample].map (fun s => s.detect_regions.map DetectRegion.encode) := by
  refine C7_amended demoDict 1 0 [demoSample] demoFS0 ("f0") ?_ ?_ ?_
  · exact List.mem_cons_self _ _
  · simp [demoFS0]
  · intro s hs det hdet
    rcases List.mem_singleton.mp hs with rfl
    simp only [demoSample] at hdet
    rcases List.mem_singleton.mp hdet with rfl
    simp [demoDetect]
